import Mathlib

/-!
Verification of the AES-GCM layer of the sindri repository
(`src/sindri/src/crypto/aes/gcm_mode.rs`).

Byte sequences are modelled as `List Nat` (each entry a byte value), the
fallible Rust functions as `Except Error` computations, and the heapless
`Vec<u8, CAP>` buffers as lists together with explicit capacity checks at
each `extend_from_slice` call site.  The AES-GCM primitive provided by the
external `aes-gcm` crate is embedded as an executable implementation of
AES-128/AES-256 in Galois/Counter mode following NIST FIPS 197 and
NIST SP 800-38D, which is the algorithm that crate implements.
-/

namespace Sindri

/-- GCM authentication tag size in bytes (`GCM_TAG_SIZE` in the `aes` module). -/
def GCM_TAG_SIZE : Nat := 16

/-- GCM nonce size in bytes (`GCM_NONCE_SIZE`). -/
def GCM_NONCE_SIZE : Nat := 12

/-- AES-128 key size in bytes (`KEY128_SIZE`). -/
def KEY128_SIZE : Nat := 16

/-- AES-256 key size in bytes (`KEY256_SIZE`). -/
def KEY256_SIZE : Nat := 32

/-- Multiplication by x in GF(2^8) with the AES reduction polynomial 0x11b. -/
def xtime (b : Nat) : Nat :=
  if b < 0x80 then 2 * b else (2 * b) ^^^ 0x11b

/-- Russian-peasant multiplication loop in GF(2^8). -/
def gf8mulLoop : Nat → Nat → Nat → Nat → Nat
  | 0, _, _, acc => acc
  | f + 1, x, y, acc =>
      gf8mulLoop f (xtime x) (y / 2) (if y % 2 = 1 then acc ^^^ x else acc)

/-- Multiplication in GF(2^8). -/
def gf8mul (x y : Nat) : Nat := gf8mulLoop 8 x y 0

/-- Inversion in GF(2^8) as the 254th power, by chained squarings
(254 = 2 + 4 + 8 + 16 + 32 + 64 + 128); `gf8inv 0 = 0`. -/
def gf8inv (b : Nat) : Nat :=
  let b2 := gf8mul b b
  let b4 := gf8mul b2 b2
  let b8 := gf8mul b4 b4
  let b16 := gf8mul b8 b8
  let b32 := gf8mul b16 b16
  let b64 := gf8mul b32 b32
  let b128 := gf8mul b64 b64
  gf8mul b2 (gf8mul b4 (gf8mul b8 (gf8mul b16 (gf8mul b32 (gf8mul b64 b128)))))

/-- Rotate a byte left by `k` bits. -/
def rotl8 (b k : Nat) : Nat := ((b <<< k) ||| (b >>> (8 - k))) &&& 0xff

/-- The AES S-box: multiplicative inverse in GF(2^8) followed by the affine map. -/
def sBox (b : Nat) : Nat :=
  let inv := gf8inv b
  inv ^^^ rotl8 inv 1 ^^^ rotl8 inv 2 ^^^ rotl8 inv 3 ^^^ rotl8 inv 4 ^^^ 0x63

/-- SubBytes applied to a word or a state. -/
def subWord (w : List Nat) : List Nat := w.map sBox

/-- RotWord: rotate a four-byte word left by one byte. -/
def rotWord (w : List Nat) : List Nat := w.drop 1 ++ w.take 1

/-- Bytewise xor of two words (or states). -/
def wordXor (a b : List Nat) : List Nat := List.zipWith (· ^^^ ·) a b

/-- AES round constants. -/
def rconByte (i : Nat) : Nat :=
  [0x01, 0x02, 0x04, 0x08, 0x10, 0x20, 0x40, 0x80, 0x1b, 0x36].getD (i - 1) 0

/-- The key-schedule transformation applied to the previous word at index `i`. -/
def nextTemp (nk i : Nat) (w : List Nat) : List Nat :=
  if i % nk = 0 then wordXor (subWord (rotWord w)) [rconByte (i / nk), 0, 0, 0]
  else if 6 < nk ∧ i % nk = 4 then subWord w
  else w

/-- Key-expansion word generator.  `acc` holds the words produced so far in
reverse order; `fuel` counts the words still to produce. -/
def expandWords (nk : Nat) : Nat → List (List Nat) → List (List Nat)
  | 0, acc => acc.reverse
  | f + 1, acc =>
      let temp := nextTemp nk acc.length (acc.headD [0, 0, 0, 0])
      expandWords nk f (wordXor (acc.getD (nk - 1) [0, 0, 0, 0]) temp :: acc)

/-- Split a byte list into four-byte words (`fuel` counts the words). -/
def wordsOfBytes : Nat → List Nat → List (List Nat)
  | 0, _ => []
  | f + 1, bs => bs.take 4 :: wordsOfBytes f (bs.drop 4)

/-- Group the schedule words into 16-byte round keys (`fuel` counts the keys). -/
def roundKeysOfWords : Nat → List (List Nat) → List (List Nat)
  | 0, _ => []
  | k + 1, ws => (ws.take 4).flatten :: roundKeysOfWords k (ws.drop 4)

/-- Full AES key expansion for `nk` key words and `nr` rounds. -/
def expandKeyAes (nk nr : Nat) (key : List Nat) : List (List Nat) :=
  roundKeysOfWords (nr + 1)
    (expandWords nk (4 * (nr + 1) - nk) (wordsOfBytes nk key).reverse)

/-- AddRoundKey: bytewise xor of the round key with the state. -/
def addRoundKey (rk s : List Nat) : List Nat := List.zipWith (· ^^^ ·) rk s

/-- SubBytes over the state. -/
def subBytes (s : List Nat) : List Nat := s.map sBox

/-- ShiftRows on a flat, column-major 16-byte state. -/
def shiftRows (s : List Nat) : List Nat :=
  [s.getD 0 0, s.getD 5 0, s.getD 10 0, s.getD 15 0,
   s.getD 4 0, s.getD 9 0, s.getD 14 0, s.getD 3 0,
   s.getD 8 0, s.getD 13 0, s.getD 2 0, s.getD 7 0,
   s.getD 12 0, s.getD 1 0, s.getD 6 0, s.getD 11 0]

/-- MixColumns on one column. -/
def mixColumn (a0 a1 a2 a3 : Nat) : List Nat :=
  [xtime a0 ^^^ (xtime a1 ^^^ a1) ^^^ a2 ^^^ a3,
   a0 ^^^ xtime a1 ^^^ (xtime a2 ^^^ a2) ^^^ a3,
   a0 ^^^ a1 ^^^ xtime a2 ^^^ (xtime a3 ^^^ a3),
   (xtime a0 ^^^ a0) ^^^ a1 ^^^ a2 ^^^ xtime a3]

/-- MixColumns over the whole state. -/
def mixColumns (s : List Nat) : List Nat :=
  mixColumn (s.getD 0 0) (s.getD 1 0) (s.getD 2 0) (s.getD 3 0) ++
  mixColumn (s.getD 4 0) (s.getD 5 0) (s.getD 6 0) (s.getD 7 0) ++
  mixColumn (s.getD 8 0) (s.getD 9 0) (s.getD 10 0) (s.getD 11 0) ++
  mixColumn (s.getD 12 0) (s.getD 13 0) (s.getD 14 0) (s.getD 15 0)

/-- The AES round sequence after the initial AddRoundKey: all rounds but the
last apply MixColumns, the last omits it. -/
def aesRounds : List (List Nat) → List Nat → List Nat
  | [], s => s
  | rk :: rks, s =>
      match rks with
      | [] => addRoundKey rk (shiftRows (subBytes s))
      | _ :: _ => aesRounds rks (addRoundKey rk (mixColumns (shiftRows (subBytes s))))

/-- AES block encryption with a precomputed round-key schedule. -/
def aesEncryptBlock (rks : List (List Nat)) (b : List Nat) : List Nat :=
  match rks with
  | [] => b
  | rk :: rest => aesRounds rest (addRoundKey rk b)

/-- Big-endian byte-list to natural number. -/
def bytesToNat (bs : List Nat) : Nat := bs.foldl (fun a b => a * 256 + b) 0

/-- Big-endian rendering of `n` as exactly `k` bytes (auxiliary). -/
def natToBytesAux : Nat → Nat → List Nat → List Nat
  | 0, _, acc => acc
  | k + 1, n, acc => natToBytesAux k (n / 256) (n % 256 :: acc)

/-- Big-endian rendering of `n` as exactly `k` bytes. -/
def natToBytes (k n : Nat) : List Nat := natToBytesAux k n []

/-- The GHASH reduction constant R = 0xe1 followed by 120 zero bits. -/
def gcmR : Nat := 0xe1 <<< 120

/-- The bit-serial GF(2^128) multiplication loop of SP 800-38D. -/
def gfMulLoop : Nat → Nat → Nat → Nat → Nat
  | 0, _, _, z => z
  | f + 1, x, v, z =>
      gfMulLoop f x (if v % 2 = 1 then (v >>> 1) ^^^ gcmR else v >>> 1)
        (if x.testBit f then z ^^^ v else z)

/-- Multiplication in GF(2^128) with the GCM bit ordering. -/
def gfMul (x y : Nat) : Nat := gfMulLoop 128 x y 0

/-- GHASH over a list of 128-bit blocks. -/
def ghash (h : Nat) (blocks : List Nat) : Nat :=
  blocks.foldl (fun y b => gfMul (y ^^^ b) h) 0

/-- A (possibly short) chunk as a zero-right-padded 128-bit block. -/
def padBlockNat (c : List Nat) : Nat := bytesToNat c <<< (8 * (16 - c.length))

/-- Split a byte sequence into padded 128-bit blocks (`fuel` bounds the count). -/
def ghashChunks : Nat → List Nat → List Nat
  | 0, _ => []
  | _ + 1, [] => []
  | f + 1, bs => padBlockNat (bs.take 16) :: ghashChunks f (bs.drop 16)

/-- The final GHASH length block: 64-bit AAD bit length, 64-bit ciphertext bit length. -/
def lenBlock (aad ct : List Nat) : Nat :=
  ((8 * aad.length) % 2 ^ 64) <<< 64 ||| ((8 * ct.length) % 2 ^ 64)

/-- GHASH of associated data and ciphertext byte sequences. -/
def ghashBytes (h : Nat) (aad ct : List Nat) : Nat :=
  ghash h (ghashChunks aad.length aad ++ ghashChunks ct.length ct ++ [lenBlock aad ct])

/-- The pre-counter block J0 for a 96-bit nonce. -/
def j0OfNonce (nonce : List Nat) : Nat := bytesToNat nonce <<< 32 ||| 1

/-- 32-bit wrapping increment of the low word of a counter block. -/
def inc32 (x : Nat) : Nat := (x >>> 32) <<< 32 + (x % 2 ^ 32 + 1) % 2 ^ 32

/-- `k` consecutive CTR keystream blocks starting at counter `c`. -/
def ctrBlocks (rks : List (List Nat)) (c : Nat) : Nat → List Nat
  | 0 => []
  | k + 1 => aesEncryptBlock rks (natToBytes 16 c) ++ ctrBlocks rks (inc32 c) k

/-- The first `n` bytes of the GCM keystream for a nonce. -/
def gcmKeystream (rks : List (List Nat)) (nonce : List Nat) (n : Nat) : List Nat :=
  (ctrBlocks rks (inc32 (j0OfNonce nonce)) ((n + 15) / 16)).take n

/-- The GCM authentication tag over associated data and ciphertext. -/
def gcmTag (rks : List (List Nat)) (nonce aad ct : List Nat) : List Nat :=
  let h := bytesToNat (aesEncryptBlock rks (natToBytes 16 0))
  let ekj0 := bytesToNat (aesEncryptBlock rks (natToBytes 16 (j0OfNonce nonce)))
  natToBytes 16 (ghashBytes h aad ct ^^^ ekj0)

/-- A cipher suite as used by the generic Rust functions: key size, nonce size,
tag size and the AES key schedule of the underlying block cipher. -/
structure GcmCipher where
  keySize : Nat
  nonceSize : Nat
  tagSize : Nat
  expandKey : List Nat → List (List Nat)

/-- The `Aes128Gcm` suite. -/
def Aes128Gcm : GcmCipher :=
  { keySize := KEY128_SIZE, nonceSize := GCM_NONCE_SIZE, tagSize := GCM_TAG_SIZE,
    expandKey := expandKeyAes 4 10 }

/-- The `Aes256Gcm` suite. -/
def Aes256Gcm : GcmCipher :=
  { keySize := KEY256_SIZE, nonceSize := GCM_NONCE_SIZE, tagSize := GCM_TAG_SIZE,
    expandKey := expandKeyAes 8 14 }

/-- CTR transformation of a buffer (used for both encryption and decryption). -/
def gcmCt (c : GcmCipher) (key nonce buf : List Nat) : List Nat :=
  List.zipWith (· ^^^ ·) buf (gcmKeystream (c.expandKey key) nonce buf.length)

/-- The tag for a ciphertext under a suite. -/
def gcmTagB (c : GcmCipher) (key nonce aad ct : List Nat) : List Nat :=
  gcmTag (c.expandKey key) nonce aad ct

/-- The `Error` enum of the `aes` module, restricted to the variants reachable
from `gcm_mode.rs`. -/
inductive Error where
  | InvalidKeySize
  | InvalidIvSize
  | InvalidBufferSize
  | Alloc
  | Encryption
  | Decryption
deriving DecidableEq, Repr

/-- Modelled from the spec: `check_sizes` lives in the parent `aes` module of the
repository, which is not among the provided sources.  Per the spec, `InvalidKeySize`
and `InvalidIvSize` are input-size precondition checks performed before any
cryptographic work, with the key size listed (and checked) first. -/
def check_sizes (key nonce : List Nat) (keySize nonceSize : Nat) : Except Error Unit :=
  if key.length ≠ keySize then .error .InvalidKeySize
  else if nonce.length ≠ nonceSize then .error .InvalidIvSize
  else .ok ()

/-- `heapless::Vec::extend_from_slice` against a static capacity `cap`. -/
def extendFromSlice (cap : Nat) (v s : List Nat) : Except Error (List Nat) :=
  if v.length + s.length ≤ cap then .ok (v ++ s) else .error .Alloc

/-- `aes_gcm_encrypt` of `gcm_mode.rs`.  The destination buffer capacity
`MAX_CIPHERTEXT_SIZE + GCM_TAG_SIZE` is taken as the parameter
`maxCiphertextSize + GCM_TAG_SIZE`, since `MAX_CIPHERTEXT_SIZE` is a
configuration constant of `common/limits.rs`, not among the provided sources
(the public wrappers' return type forces it to equal `MAX_PLAINTEXT_SIZE`). -/
def aes_gcm_encrypt (c : GcmCipher) (maxCiphertextSize : Nat)
    (key nonce aad plaintext : List Nat) : Except Error (List Nat) :=
  match check_sizes key nonce c.keySize c.nonceSize with
  | .error e => .error e
  | .ok _ =>
      match extendFromSlice (maxCiphertextSize + GCM_TAG_SIZE) [] plaintext with
      | .error e => .error e
      | .ok buf =>
          extendFromSlice (maxCiphertextSize + GCM_TAG_SIZE) (gcmCt c key nonce buf)
            (gcmTagB c key nonce aad (gcmCt c key nonce buf))

/-- `aes_gcm_decrypt` of `gcm_mode.rs`, with the `MAX_PLAINTEXT_SIZE` buffer
capacity as the parameter `maxPlaintextSize`. -/
def aes_gcm_decrypt (c : GcmCipher) (maxPlaintextSize : Nat)
    (key nonce aad ciphertext_and_tag : List Nat) : Except Error (List Nat) :=
  match check_sizes key nonce c.keySize c.nonceSize with
  | .error e => .error e
  | .ok _ =>
      if ciphertext_and_tag.length < c.tagSize then .error .InvalidBufferSize
      else
        match extendFromSlice maxPlaintextSize []
            (ciphertext_and_tag.take (ciphertext_and_tag.length - c.tagSize)) with
        | .error e => .error e
        | .ok buf =>
            if gcmTagB c key nonce aad buf =
                ciphertext_and_tag.drop (ciphertext_and_tag.length - c.tagSize) then
              .ok (gcmCt c key nonce buf)
            else .error .Decryption

/-- `aes128gcm_encrypt` public wrapper. -/
def aes128gcm_encrypt (maxSize : Nat) (key nonce aad plaintext : List Nat) :
    Except Error (List Nat) :=
  aes_gcm_encrypt Aes128Gcm maxSize key nonce aad plaintext

/-- `aes128gcm_decrypt` public wrapper. -/
def aes128gcm_decrypt (maxSize : Nat) (key nonce aad ciphertext : List Nat) :
    Except Error (List Nat) :=
  aes_gcm_decrypt Aes128Gcm maxSize key nonce aad ciphertext

/-- `aes256gcm_encrypt` public wrapper. -/
def aes256gcm_encrypt (maxSize : Nat) (key nonce aad plaintext : List Nat) :
    Except Error (List Nat) :=
  aes_gcm_encrypt Aes256Gcm maxSize key nonce aad plaintext

/-- `aes256gcm_decrypt` public wrapper. -/
def aes256gcm_decrypt (maxSize : Nat) (key nonce aad ciphertext : List Nat) :
    Except Error (List Nat) :=
  aes_gcm_decrypt Aes256Gcm maxSize key nonce aad ciphertext

/-- A cipher suite whose key schedule produces 16-byte round keys from any key of
the advertised size. -/
def GoodCipher (c : GcmCipher) : Prop :=
  ∀ key : List Nat, key.length = c.keySize → ∀ rk ∈ c.expandKey key, rk.length = 16

/-- The test constant `KEY128 = b"Open sesame! ..."` of `gcm_mode.rs`. -/
def KEY128 : List Nat :=
  [79, 112, 101, 110, 32, 115, 101, 115, 97, 109, 101, 33, 32, 46, 46, 46]

/-- The test constant `NONCE = [1, .., 12]` of `gcm_mode.rs`. -/
def NONCE : List Nat := [1, 2, 3, 4, 5, 6, 7, 8, 9, 10, 11, 12]

/-- The test constant `PLAINTEXT = b"Hello, World!"` of `gcm_mode.rs`. -/
def PLAINTEXT : List Nat :=
  [72, 101, 108, 108, 111, 44, 32, 87, 111, 114, 108, 100, 33]

/-! ### Well-formedness of the key schedule and length lemmas -/

theorem natToBytesAux_length :
    ∀ (k n : Nat) (acc : List Nat), (natToBytesAux k n acc).length = k + acc.length := by
  intro k
  induction k with
  | zero => intro n acc; simp [natToBytesAux]
  | succ k ih => intro n acc; rw [natToBytesAux, ih]; simp; omega

theorem natToBytes_length (k n : Nat) : (natToBytes k n).length = k := by
  simp [natToBytes, natToBytesAux_length]

theorem wordXor_length (a b : List Nat) : (wordXor a b).length = min a.length b.length := by
  simp [wordXor]

theorem rotWord_length (w : List Nat) : (rotWord w).length = w.length := by
  simp [rotWord]; omega

theorem subWord_length (w : List Nat) : (subWord w).length = w.length := by
  simp [subWord]

theorem nextTemp_length (nk i : Nat) (w : List Nat) (hw : w.length = 4) :
    (nextTemp nk i w).length = 4 := by
  unfold nextTemp
  split
  · rw [wordXor_length, subWord_length, rotWord_length, hw]; simp
  · split
    · rw [subWord_length, hw]
    · exact hw

theorem headD_length_four (l : List (List Nat)) (h : ∀ w ∈ l, w.length = 4) :
    (l.headD [0, 0, 0, 0]).length = 4 := by
  cases l with
  | nil => rfl
  | cons a l => exact h a (by simp)

theorem getD_length_four (l : List (List Nat)) (h : ∀ w ∈ l, w.length = 4) (n : Nat) :
    (l.getD n [0, 0, 0, 0]).length = 4 := by
  induction l generalizing n with
  | nil => cases n <;> rfl
  | cons a l ih =>
      cases n with
      | zero => rw [List.getD_cons_zero]; exact h a (by simp)
      | succ n => rw [List.getD_cons_succ]; exact ih (fun w hw => h w (by simp [hw])) n

theorem expandWords_all4 (nk : Nat) :
    ∀ (f : Nat) (acc : List (List Nat)), (∀ w ∈ acc, w.length = 4) →
      ∀ w ∈ expandWords nk f acc, w.length = 4 := by
  intro f
  induction f with
  | zero =>
      intro acc h w hw
      rw [expandWords] at hw
      exact h w (List.mem_reverse.mp hw)
  | succ f ih =>
      intro acc h w hw
      rw [expandWords] at hw
      refine ih _ (fun u hu => ?_) w hw
      rcases List.mem_cons.mp hu with h1 | h1
      · subst h1
        rw [wordXor_length, getD_length_four acc h,
          nextTemp_length nk acc.length _ (headD_length_four acc h)]
        simp
      · exact h u h1

theorem expandWords_length (nk : Nat) :
    ∀ (f : Nat) (acc : List (List Nat)), (expandWords nk f acc).length = f + acc.length := by
  intro f
  induction f with
  | zero => intro acc; simp [expandWords]
  | succ f ih => intro acc; rw [expandWords, ih]; simp; omega

theorem wordsOfBytes_all4 :
    ∀ (f : Nat) (bs : List Nat), bs.length = 4 * f →
      ∀ w ∈ wordsOfBytes f bs, w.length = 4 := by
  intro f
  induction f with
  | zero => intro bs _ w hw; simp [wordsOfBytes] at hw
  | succ f ih =>
      intro bs hlen w hw
      rw [wordsOfBytes] at hw
      rcases List.mem_cons.mp hw with h1 | h1
      · subst h1; simp; omega
      · exact ih (bs.drop 4) (by simp; omega) w h1

theorem wordsOfBytes_length :
    ∀ (f : Nat) (bs : List Nat), (wordsOfBytes f bs).length = f := by
  intro f
  induction f with
  | zero => intro bs; simp [wordsOfBytes]
  | succ f ih => intro bs; rw [wordsOfBytes]; simp [ih]

theorem flatten_length_four :
    ∀ (l : List (List Nat)), (∀ w ∈ l, w.length = 4) →
      l.flatten.length = 4 * l.length := by
  intro l
  induction l with
  | nil => simp
  | cons a l ih =>
      intro h
      rw [List.flatten_cons]
      simp only [List.length_append, List.length_cons]
      rw [h a (by simp), ih (fun w hw => h w (by simp [hw]))]
      ring

theorem roundKeysOfWords_all16 :
    ∀ (k : Nat) (ws : List (List Nat)), 4 * k ≤ ws.length →
      (∀ w ∈ ws, w.length = 4) → ∀ rk ∈ roundKeysOfWords k ws, rk.length = 16 := by
  intro k
  induction k with
  | zero => intro ws _ _ rk hrk; simp [roundKeysOfWords] at hrk
  | succ k ih =>
      intro ws hlen h4 rk hrk
      rw [roundKeysOfWords] at hrk
      rcases List.mem_cons.mp hrk with h1 | h1
      · subst h1
        rw [flatten_length_four _ (fun w hw => h4 w (List.take_subset 4 ws hw))]
        simp; omega
      · refine ih (ws.drop 4) (by simp; omega)
          (fun w hw => h4 w (List.drop_subset 4 ws hw)) rk h1

theorem expandKeyAes_all16 (nk nr : Nat) (key : List Nat) (h : key.length = 4 * nk)
    (hle : nk ≤ 4 * (nr + 1)) : ∀ rk ∈ expandKeyAes nk nr key, rk.length = 16 := by
  unfold expandKeyAes
  apply roundKeysOfWords_all16
  · rw [expandWords_length]
    simp [wordsOfBytes_length]
    omega
  · exact expandWords_all4 nk _ _
      (fun w hw => wordsOfBytes_all4 nk key h w (List.mem_reverse.mp hw))

theorem goodAes128 : GoodCipher Aes128Gcm := by
  intro key hk
  exact expandKeyAes_all16 4 10 key hk (by omega)

theorem goodAes256 : GoodCipher Aes256Gcm := by
  intro key hk
  exact expandKeyAes_all16 8 14 key hk (by omega)

theorem addRoundKey_length (rk s : List Nat) :
    (addRoundKey rk s).length = min rk.length s.length := by
  simp [addRoundKey]

theorem shiftRows_length (s : List Nat) : (shiftRows s).length = 16 := rfl

theorem mixColumns_length (s : List Nat) : (mixColumns s).length = 16 := rfl

theorem subBytes_length (s : List Nat) : (subBytes s).length = s.length := by
  simp [subBytes]

theorem aesRounds_length :
    ∀ (rks : List (List Nat)) (s : List Nat), (∀ rk ∈ rks, rk.length = 16) →
      s.length = 16 → (aesRounds rks s).length = 16 := by
  intro rks
  induction rks with
  | nil => intro s _ hs; exact hs
  | cons rk rest ih =>
      intro s h hs
      cases rest with
      | nil =>
          show (addRoundKey rk (shiftRows (subBytes s))).length = 16
          rw [addRoundKey_length, shiftRows_length, h rk (by simp)]; simp
      | cons rk2 rest2 =>
          show (aesRounds (rk2 :: rest2) (addRoundKey rk (mixColumns (shiftRows (subBytes s))))).length = 16
          refine ih _ (fun r hr => h r (by simp [hr])) ?_
          rw [addRoundKey_length, mixColumns_length, h rk (by simp)]; simp

theorem aesEncryptBlock_length (rks : List (List Nat)) (b : List Nat)
    (h : ∀ rk ∈ rks, rk.length = 16) (hb : b.length = 16) :
    (aesEncryptBlock rks b).length = 16 := by
  cases rks with
  | nil => exact hb
  | cons rk rest =>
      show (aesRounds rest (addRoundKey rk b)).length = 16
      refine aesRounds_length rest _ (fun r hr => h r (by simp [hr])) ?_
      rw [addRoundKey_length, hb, h rk (by simp)]; simp

theorem ctrBlocks_length (rks : List (List Nat)) (h : ∀ rk ∈ rks, rk.length = 16) :
    ∀ (k c : Nat), (ctrBlocks rks c k).length = 16 * k := by
  intro k
  induction k with
  | zero => intro c; simp [ctrBlocks]
  | succ k ih =>
      intro c
      rw [ctrBlocks]
      simp only [List.length_append, ih,
        aesEncryptBlock_length rks _ h (natToBytes_length 16 c)]
      ring

theorem gcmKeystream_length (rks : List (List Nat)) (nonce : List Nat) (n : Nat)
    (h : ∀ rk ∈ rks, rk.length = 16) : (gcmKeystream rks nonce n).length = n := by
  rw [gcmKeystream, List.length_take, ctrBlocks_length rks h]
  have h1 := Nat.div_add_mod (n + 15) 16
  have h2 : (n + 15) % 16 < 16 := Nat.mod_lt _ (by omega)
  omega

theorem gcmCt_length (c : GcmCipher) (key nonce buf : List Nat) (hg : GoodCipher c)
    (hk : key.length = c.keySize) : (gcmCt c key nonce buf).length = buf.length := by
  rw [gcmCt, List.length_zipWith, gcmKeystream_length _ _ _ (hg key hk)]
  simp

theorem gcmTagB_length (c : GcmCipher) (key nonce aad ct : List Nat) :
    (gcmTagB c key nonce aad ct).length = 16 := by
  rw [gcmTagB, gcmTag]
  exact natToBytes_length 16 _

theorem zipWith_xor_cancel :
    ∀ (xs ks : List Nat), xs.length ≤ ks.length →
      List.zipWith (· ^^^ ·) (List.zipWith (· ^^^ ·) xs ks) ks = xs := by
  intro xs
  induction xs with
  | nil => intro ks _; simp
  | cons x xs ih =>
      intro ks h
      cases ks with
      | nil => simp at h
      | cons k ks =>
          simp only [List.zipWith_cons_cons, List.cons.injEq]
          exact ⟨Nat.xor_cancel_right k x, ih ks (by simpa using h)⟩

theorem gcmCt_invol (c : GcmCipher) (key nonce pt : List Nat) (hg : GoodCipher c)
    (hk : key.length = c.keySize) : gcmCt c key nonce (gcmCt c key nonce pt) = pt := by
  have hlen := gcmCt_length c key nonce pt hg hk
  rw [gcmCt, hlen]
  rw [show gcmCt c key nonce pt =
    List.zipWith (· ^^^ ·) pt (gcmKeystream (c.expandKey key) nonce pt.length) from rfl]
  exact zipWith_xor_cancel pt _ (by rw [gcmKeystream_length _ _ _ (hg key hk)])

/-! ### Shape lemmas for the two operations -/

theorem check_sizes_ok {key nonce : List Nat} {ks ns : Nat}
    (hk : key.length = ks) (hn : nonce.length = ns) :
    check_sizes key nonce ks ns = .ok () := by
  simp [check_sizes, hk, hn]

theorem encrypt_ok_shape (c : GcmCipher) (M : Nat) (key nonce aad pt : List Nat)
    (hk : key.length = c.keySize) (hn : nonce.length = c.nonceSize)
    (hp : pt.length ≤ M) :
    aes_gcm_encrypt c M key nonce aad pt =
      .ok (gcmCt c key nonce pt ++ gcmTagB c key nonce aad (gcmCt c key nonce pt)) := by
  rw [aes_gcm_encrypt, check_sizes_ok hk hn]
  have h1 : extendFromSlice (M + GCM_TAG_SIZE) [] pt = .ok pt := by
    simp only [extendFromSlice, GCM_TAG_SIZE, List.length_nil, List.nil_append]
    rw [if_pos (by omega)]
  rw [h1]
  show extendFromSlice (M + GCM_TAG_SIZE) (gcmCt c key nonce pt)
      (gcmTagB c key nonce aad (gcmCt c key nonce pt)) =
    Except.ok (gcmCt c key nonce pt ++ gcmTagB c key nonce aad (gcmCt c key nonce pt))
  have hct : (gcmCt c key nonce pt).length ≤ pt.length := by
    rw [gcmCt, List.length_zipWith]; omega
  unfold extendFromSlice
  rw [gcmTagB_length, if_pos (by simp only [GCM_TAG_SIZE] at *; omega)]

theorem decrypt_ok_shape (c : GcmCipher) (M : Nat) (key nonce aad ct tg : List Nat)
    (hk : key.length = c.keySize) (hn : nonce.length = c.nonceSize)
    (htl : tg.length = c.tagSize) (hcap : ct.length ≤ M)
    (hmatch : gcmTagB c key nonce aad ct = tg) :
    aes_gcm_decrypt c M key nonce aad (ct ++ tg) = .ok (gcmCt c key nonce ct) := by
  rw [aes_gcm_decrypt, check_sizes_ok hk hn]
  have hlen : (ct ++ tg).length = ct.length + c.tagSize := by simp [htl]
  rw [if_neg (by omega)]
  have hsub : (ct ++ tg).length - c.tagSize = ct.length := by omega
  rw [hsub, List.take_left, List.drop_left]
  have hext : extendFromSlice M [] ct = .ok ct := by
    simp only [extendFromSlice, List.length_nil, List.nil_append]
    rw [if_pos (by omega)]
  rw [hext]
  show (if gcmTagB c key nonce aad ct = tg then Except.ok (gcmCt c key nonce ct)
    else Except.error Error.Decryption) = Except.ok (gcmCt c key nonce ct)
  rw [if_pos hmatch]

theorem roundtrip_aux (c : GcmCipher) (M : Nat) (key nonce aad pt : List Nat)
    (hg : GoodCipher c) (hts : c.tagSize = 16)
    (hk : key.length = c.keySize) (hn : nonce.length = c.nonceSize)
    (hp : pt.length ≤ M) :
    (aes_gcm_encrypt c M key nonce aad pt).bind (aes_gcm_decrypt c M key nonce aad) =
      .ok pt := by
  rw [encrypt_ok_shape c M key nonce aad pt hk hn hp]
  show aes_gcm_decrypt c M key nonce aad
    (gcmCt c key nonce pt ++ gcmTagB c key nonce aad (gcmCt c key nonce pt)) = .ok pt
  rw [decrypt_ok_shape c M key nonce aad _ _ hk hn
    (by rw [gcmTagB_length, hts])
    (by rw [gcmCt_length c key nonce pt hg hk]; exact hp) rfl]
  rw [gcmCt_invol c key nonce pt hg hk]

theorem check_sizes_key_err {key nonce : List Nat} {ks ns : Nat}
    (hk : key.length ≠ ks) :
    check_sizes key nonce ks ns = .error .InvalidKeySize := by
  simp [check_sizes, hk]

theorem check_sizes_iv_err {key nonce : List Nat} {ks ns : Nat}
    (hk : key.length = ks) (hn : nonce.length ≠ ns) :
    check_sizes key nonce ks ns = .error .InvalidIvSize := by
  simp [check_sizes, hk, hn]

theorem encrypt_ok_inv (c : GcmCipher) (M : Nat) (key nonce aad pt out : List Nat)
    (h : aes_gcm_encrypt c M key nonce aad pt = .ok out) :
    key.length = c.keySize ∧ nonce.length = c.nonceSize ∧
      out = gcmCt c key nonce pt ++ gcmTagB c key nonce aad (gcmCt c key nonce pt) := by
  by_cases hk : key.length = c.keySize
  · by_cases hn : nonce.length = c.nonceSize
    · refine ⟨hk, hn, ?_⟩
      rw [aes_gcm_encrypt, check_sizes_ok hk hn] at h
      by_cases hp : pt.length ≤ M + GCM_TAG_SIZE
      · have h1 : extendFromSlice (M + GCM_TAG_SIZE) [] pt = .ok pt := by
          unfold extendFromSlice
          rw [if_pos (by simpa using hp)]
          rfl
        rw [h1] at h
        have h2 : extendFromSlice (M + GCM_TAG_SIZE) (gcmCt c key nonce pt)
            (gcmTagB c key nonce aad (gcmCt c key nonce pt)) = .ok out := h
        by_cases hcap : (gcmCt c key nonce pt).length +
            (gcmTagB c key nonce aad (gcmCt c key nonce pt)).length ≤ M + GCM_TAG_SIZE
        · rw [show extendFromSlice (M + GCM_TAG_SIZE) (gcmCt c key nonce pt)
              (gcmTagB c key nonce aad (gcmCt c key nonce pt)) =
              .ok (gcmCt c key nonce pt ++ gcmTagB c key nonce aad (gcmCt c key nonce pt))
            from by unfold extendFromSlice; rw [if_pos hcap]] at h2
          exact (Except.ok.inj h2).symm
        · rw [show extendFromSlice (M + GCM_TAG_SIZE) (gcmCt c key nonce pt)
              (gcmTagB c key nonce aad (gcmCt c key nonce pt)) = .error .Alloc
            from by unfold extendFromSlice; rw [if_neg hcap]] at h2
          cases h2
      · have h1 : extendFromSlice (M + GCM_TAG_SIZE) [] pt = .error .Alloc := by
          unfold extendFromSlice
          rw [if_neg (by simpa using hp)]
        rw [h1] at h
        have h2 : Except.error Error.Alloc = Except.ok out := h
        cases h2
    · rw [aes_gcm_encrypt, check_sizes_iv_err hk hn] at h
      have h2 : Except.error Error.InvalidIvSize = Except.ok out := h
      cases h2
  · rw [aes_gcm_encrypt, check_sizes_key_err hk] at h
    have h2 : Except.error Error.InvalidKeySize = Except.ok out := h
    cases h2

theorem decrypt_ok_inv (c : GcmCipher) (M : Nat) (key nonce aad input p : List Nat)
    (h : aes_gcm_decrypt c M key nonce aad input = .ok p) :
    key.length = c.keySize ∧ nonce.length = c.nonceSize ∧ c.tagSize ≤ input.length ∧
      p = gcmCt c key nonce (input.take (input.length - c.tagSize)) := by
  by_cases hk : key.length = c.keySize
  · by_cases hn : nonce.length = c.nonceSize
    · rw [aes_gcm_decrypt, check_sizes_ok hk hn] at h
      by_cases hshort : input.length < c.tagSize
      · rw [if_pos hshort] at h
        have h2 : Except.error Error.InvalidBufferSize = Except.ok p := h
        cases h2
      · refine ⟨hk, hn, by omega, ?_⟩
        rw [if_neg hshort] at h
        by_cases hcap : (input.take (input.length - c.tagSize)).length ≤ M
        · have h1 : extendFromSlice M [] (input.take (input.length - c.tagSize)) =
              .ok (input.take (input.length - c.tagSize)) := by
            unfold extendFromSlice
            rw [if_pos (by simpa using hcap)]
            rfl
          rw [h1] at h
          have h2 : (if gcmTagB c key nonce aad (input.take (input.length - c.tagSize)) =
              input.drop (input.length - c.tagSize) then
                Except.ok (gcmCt c key nonce (input.take (input.length - c.tagSize)))
              else Except.error Error.Decryption) = Except.ok p := h
          by_cases hm : gcmTagB c key nonce aad (input.take (input.length - c.tagSize)) =
              input.drop (input.length - c.tagSize)
          · rw [if_pos hm] at h2
            exact (Except.ok.inj h2).symm
          · rw [if_neg hm] at h2
            cases h2
        · have h1 : extendFromSlice M [] (input.take (input.length - c.tagSize)) =
              .error .Alloc := by
            unfold extendFromSlice
            rw [if_neg (by simpa using hcap)]
          rw [h1] at h
          have h2 : Except.error Error.Alloc = Except.ok p := h
          cases h2
    · rw [aes_gcm_decrypt, check_sizes_iv_err hk hn] at h
      have h2 : Except.error Error.InvalidIvSize = Except.ok p := h
      cases h2
  · rw [aes_gcm_decrypt, check_sizes_key_err hk] at h
    have h2 : Except.error Error.InvalidKeySize = Except.ok p := h
    cases h2

/-! ### Claims -/

set_option maxRecDepth 40000

/-- C1: For each supported cipher suite (AES-128-GCM and AES-256-GCM), for every key of
the suite's exact required size, every 96-bit nonce, every associated-data byte sequence,
and every plaintext within the configured maximum size (including the empty sequence for
both), decrypting the output of encrypt with the same key, nonce and associated data
returns exactly the original plaintext. -/
theorem aes_gcm_roundtrip (c : GcmCipher) (hc : c = Aes128Gcm ∨ c = Aes256Gcm)
    (M : Nat) (key nonce aad pt : List Nat)
    (hk : key.length = c.keySize) (hn : nonce.length = c.nonceSize)
    (hp : pt.length ≤ M) :
    (aes_gcm_encrypt c M key nonce aad pt).bind (aes_gcm_decrypt c M key nonce aad) =
      .ok pt := by
  rcases hc with hc | hc <;> subst hc
  · exact roundtrip_aux _ M key nonce aad pt goodAes128 rfl hk hn hp
  · exact roundtrip_aux _ M key nonce aad pt goodAes256 rfl hk hn hp

/-- Witness for C1: the AES-128-GCM suite, the all-zero key and nonce, empty associated
data and empty plaintext. -/
theorem aes_gcm_roundtrip_witness :
    ([] : List Nat).length ≤ 0 ∧
      (aes_gcm_encrypt Aes128Gcm 0 (List.replicate 16 0) (List.replicate 12 0) [] []).bind
        (aes_gcm_decrypt Aes128Gcm 0 (List.replicate 16 0) (List.replicate 12 0) []) =
        .ok [] :=
  ⟨by decide, aes_gcm_roundtrip Aes128Gcm (Or.inl rfl) 0 (List.replicate 16 0)
    (List.replicate 12 0) [] [] (by decide) (by decide) (by decide)⟩

/-- C3: Encrypting with AES-128-GCM using the 16-byte key `b"Open sesame! ..."`, the
nonce `[1, .., 12]`, empty associated data and the plaintext `"Hello, World!"` produces
exactly the ciphertext bytes bb fe 08 2b 97 86 d4 e4 a4 ec 19 db 63 followed by the tag
bytes 40 ce 93 5a 71 5e 63 09 0b 11 ad 51 4d e8 23 50, and decrypting that exact byte
sequence with the same key, nonce and empty associated data returns exactly
`"Hello, World!"`, for any configured maximum size admitting the 13-byte plaintext. -/
theorem aes128gcm_reference_vector (M : Nat) (hM : 13 ≤ M) :
    aes128gcm_encrypt M KEY128 NONCE [] PLAINTEXT =
      .ok [0xbb, 0xfe, 0x08, 0x2b, 0x97, 0x86, 0xd4, 0xe4, 0xa4, 0xec, 0x19, 0xdb, 0x63,
        0x40, 0xce, 0x93, 0x5a, 0x71, 0x5e, 0x63, 0x09, 0x0b, 0x11, 0xad, 0x51, 0x4d,
        0xe8, 0x23, 0x50] ∧
    aes128gcm_decrypt M KEY128 NONCE []
        [0xbb, 0xfe, 0x08, 0x2b, 0x97, 0x86, 0xd4, 0xe4, 0xa4, 0xec, 0x19, 0xdb, 0x63,
          0x40, 0xce, 0x93, 0x5a, 0x71, 0x5e, 0x63, 0x09, 0x0b, 0x11, 0xad, 0x51, 0x4d,
          0xe8, 0x23, 0x50] = .ok PLAINTEXT := by
  constructor
  · rw [aes128gcm_encrypt,
      encrypt_ok_shape Aes128Gcm M KEY128 NONCE [] PLAINTEXT rfl rfl
        (by simp [PLAINTEXT]; omega)]
    rfl
  · rw [show ([0xbb, 0xfe, 0x08, 0x2b, 0x97, 0x86, 0xd4, 0xe4, 0xa4, 0xec, 0x19, 0xdb,
        0x63, 0x40, 0xce, 0x93, 0x5a, 0x71, 0x5e, 0x63, 0x09, 0x0b, 0x11, 0xad, 0x51,
        0x4d, 0xe8, 0x23, 0x50] : List Nat) =
        [0xbb, 0xfe, 0x08, 0x2b, 0x97, 0x86, 0xd4, 0xe4, 0xa4, 0xec, 0x19, 0xdb, 0x63] ++
          [0x40, 0xce, 0x93, 0x5a, 0x71, 0x5e, 0x63, 0x09, 0x0b, 0x11, 0xad, 0x51, 0x4d,
            0xe8, 0x23, 0x50] from rfl]
    rw [aes128gcm_decrypt,
      decrypt_ok_shape Aes128Gcm M KEY128 NONCE []
        [0xbb, 0xfe, 0x08, 0x2b, 0x97, 0x86, 0xd4, 0xe4, 0xa4, 0xec, 0x19, 0xdb, 0x63]
        [0x40, 0xce, 0x93, 0x5a, 0x71, 0x5e, 0x63, 0x09, 0x0b, 0x11, 0xad, 0x51, 0x4d,
          0xe8, 0x23, 0x50] rfl rfl rfl (by simp; omega) (by rfl)]
    rfl

/-- Witness for C3 at the configured maximum size 64. -/
theorem aes128gcm_reference_vector_witness :
    13 ≤ 64 ∧
      (aes128gcm_encrypt 64 KEY128 NONCE [] PLAINTEXT =
        .ok [0xbb, 0xfe, 0x08, 0x2b, 0x97, 0x86, 0xd4, 0xe4, 0xa4, 0xec, 0x19, 0xdb, 0x63,
          0x40, 0xce, 0x93, 0x5a, 0x71, 0x5e, 0x63, 0x09, 0x0b, 0x11, 0xad, 0x51, 0x4d,
          0xe8, 0x23, 0x50] ∧
      aes128gcm_decrypt 64 KEY128 NONCE []
          [0xbb, 0xfe, 0x08, 0x2b, 0x97, 0x86, 0xd4, 0xe4, 0xa4, 0xec, 0x19, 0xdb, 0x63,
            0x40, 0xce, 0x93, 0x5a, 0x71, 0x5e, 0x63, 0x09, 0x0b, 0x11, 0xad, 0x51, 0x4d,
            0xe8, 0x23, 0x50] = .ok PLAINTEXT) :=
  ⟨by decide, aes128gcm_reference_vector 64 (by decide)⟩

/-- C4: For each supported cipher suite and every key whose length differs from the
suite's required key size, both encrypt and decrypt return `InvalidKeySize`, regardless
of the other arguments. -/
theorem invalid_key_size_rejected (c : GcmCipher) (hc : c = Aes128Gcm ∨ c = Aes256Gcm)
    (M₁ M₂ : Nat) (key nonce aad pt ct : List Nat) (hk : key.length ≠ c.keySize) :
    aes_gcm_encrypt c M₁ key nonce aad pt = .error .InvalidKeySize ∧
    aes_gcm_decrypt c M₂ key nonce aad ct = .error .InvalidKeySize := by
  constructor
  · rw [aes_gcm_encrypt, check_sizes_key_err hk]
  · rw [aes_gcm_decrypt, check_sizes_key_err hk]

/-- Witness for C4: the empty key against AES-128-GCM. -/
theorem invalid_key_size_rejected_witness :
    ([] : List Nat).length ≠ Aes128Gcm.keySize ∧
      (aes_gcm_encrypt Aes128Gcm 0 [] [] [] [] = .error .InvalidKeySize ∧
        aes_gcm_decrypt Aes128Gcm 0 [] [] [] [] = .error .InvalidKeySize) :=
  ⟨by decide, invalid_key_size_rejected Aes128Gcm (Or.inl rfl) 0 0 [] [] [] [] []
    (by decide)⟩

/-- C5: For each supported cipher suite, a key of the correct size and every nonce whose
length differs from the required 12-byte nonce size, both encrypt and decrypt return
`InvalidIvSize`, regardless of the other arguments. -/
theorem invalid_iv_size_rejected (c : GcmCipher) (hc : c = Aes128Gcm ∨ c = Aes256Gcm)
    (M₁ M₂ : Nat) (key nonce aad pt ct : List Nat)
    (hk : key.length = c.keySize) (hn : nonce.length ≠ c.nonceSize) :
    aes_gcm_encrypt c M₁ key nonce aad pt = .error .InvalidIvSize ∧
    aes_gcm_decrypt c M₂ key nonce aad ct = .error .InvalidIvSize := by
  constructor
  · rw [aes_gcm_encrypt, check_sizes_iv_err hk hn]
  · rw [aes_gcm_decrypt, check_sizes_iv_err hk hn]

/-- Witness for C5: the all-zero 16-byte key and the empty nonce against AES-128-GCM. -/
theorem invalid_iv_size_rejected_witness :
    ([] : List Nat).length ≠ Aes128Gcm.nonceSize ∧
      (aes_gcm_encrypt Aes128Gcm 0 (List.replicate 16 0) [] [] [] = .error .InvalidIvSize ∧
        aes_gcm_decrypt Aes128Gcm 0 (List.replicate 16 0) [] [] [] =
          .error .InvalidIvSize) :=
  ⟨by decide, invalid_iv_size_rejected Aes128Gcm (Or.inl rfl) 0 0 (List.replicate 16 0)
    [] [] [] [] (by decide) (by decide)⟩

/-- C6: For each supported cipher suite, a key and nonce of the correct sizes and every
ciphertext-with-tag input strictly shorter than the 16-byte tag, decrypt returns
`InvalidBufferSize`. -/
theorem short_ciphertext_rejected (c : GcmCipher) (hc : c = Aes128Gcm ∨ c = Aes256Gcm)
    (M : Nat) (key nonce aad ct : List Nat)
    (hk : key.length = c.keySize) (hn : nonce.length = c.nonceSize)
    (hshort : ct.length < GCM_TAG_SIZE) :
    aes_gcm_decrypt c M key nonce aad ct = .error .InvalidBufferSize := by
  have hts : c.tagSize = GCM_TAG_SIZE := by
    rcases hc with hc | hc <;> subst hc <;> rfl
  have hshort' : ct.length < c.tagSize := by omega
  rw [aes_gcm_decrypt, check_sizes_ok hk hn, if_pos hshort']

/-- Witness for C6: the empty ciphertext input against AES-128-GCM. -/
theorem short_ciphertext_rejected_witness :
    ([] : List Nat).length < GCM_TAG_SIZE ∧
      aes_gcm_decrypt Aes128Gcm 0 (List.replicate 16 0) (List.replicate 12 0) [] [] =
        .error .InvalidBufferSize :=
  ⟨by decide, short_ciphertext_rejected Aes128Gcm (Or.inl rfl) 0 (List.replicate 16 0)
    (List.replicate 12 0) [] [] (by decide) (by decide) (by decide)⟩

/-- C7: For every valid key and nonce, encrypt produces the ciphertext followed by the
tag as one contiguous output, and returns `Alloc` (the spec's `AllocationFailed`) exactly
when the output, plaintext length plus tag size, would exceed the destination buffer's
static capacity. -/
theorem encrypt_output_layout (c : GcmCipher) (hc : c = Aes128Gcm ∨ c = Aes256Gcm)
    (M : Nat) (key nonce aad pt : List Nat)
    (hk : key.length = c.keySize) (hn : nonce.length = c.nonceSize) :
    aes_gcm_encrypt c M key nonce aad pt =
      if pt.length + GCM_TAG_SIZE ≤ M + GCM_TAG_SIZE then
        .ok (gcmCt c key nonce pt ++ gcmTagB c key nonce aad (gcmCt c key nonce pt))
      else .error .Alloc := by
  have hg : GoodCipher c := by
    rcases hc with hc | hc <;> subst hc
    exacts [goodAes128, goodAes256]
  split
  · rename_i hle
    exact encrypt_ok_shape c M key nonce aad pt hk hn (by omega)
  · rename_i hgt
    have hM : M < pt.length := by omega
    rw [aes_gcm_encrypt, check_sizes_ok hk hn]
    by_cases h2 : pt.length ≤ M + GCM_TAG_SIZE
    · have h1 : extendFromSlice (M + GCM_TAG_SIZE) [] pt = .ok pt := by
        unfold extendFromSlice
        rw [if_pos (by simpa using h2)]
        rfl
      rw [h1]
      show extendFromSlice (M + GCM_TAG_SIZE) (gcmCt c key nonce pt)
        (gcmTagB c key nonce aad (gcmCt c key nonce pt)) = .error .Alloc
      unfold extendFromSlice
      rw [gcmTagB_length, gcmCt_length c key nonce pt hg hk,
        if_neg (by simp only [GCM_TAG_SIZE] at *; omega)]
    · have h1 : extendFromSlice (M + GCM_TAG_SIZE) [] pt = .error .Alloc := by
        unfold extendFromSlice
        rw [if_neg (by simpa using h2)]
      rw [h1]

/-- Witness for C7: AES-128-GCM, all-zero key and nonce, empty plaintext, capacity 0. -/
theorem encrypt_output_layout_witness :
    (List.replicate 16 0 : List Nat).length = Aes128Gcm.keySize ∧
      aes_gcm_encrypt Aes128Gcm 0 (List.replicate 16 0) (List.replicate 12 0) [] [] =
        if ([] : List Nat).length + GCM_TAG_SIZE ≤ 0 + GCM_TAG_SIZE then
          .ok (gcmCt Aes128Gcm (List.replicate 16 0) (List.replicate 12 0) [] ++
            gcmTagB Aes128Gcm (List.replicate 16 0) (List.replicate 12 0) []
              (gcmCt Aes128Gcm (List.replicate 16 0) (List.replicate 12 0) []))
        else .error .Alloc :=
  ⟨by decide, encrypt_output_layout Aes128Gcm (Or.inl rfl) 0 (List.replicate 16 0)
    (List.replicate 12 0) [] [] (by decide) (by decide)⟩

/-- C8: Every successful encrypt returns exactly plaintext length plus 16 bytes, and
every successful decrypt returns exactly the input length minus 16 bytes. -/
theorem output_length_exact (c : GcmCipher) (hc : c = Aes128Gcm ∨ c = Aes256Gcm)
    (M₁ M₂ : Nat) (key nonce aad pt input out p : List Nat) :
    (aes_gcm_encrypt c M₁ key nonce aad pt = .ok out →
      out.length = pt.length + GCM_TAG_SIZE) ∧
    (aes_gcm_decrypt c M₂ key nonce aad input = .ok p →
      p.length = input.length - GCM_TAG_SIZE) := by
  have hg : GoodCipher c := by
    rcases hc with hc | hc <;> subst hc
    exacts [goodAes128, goodAes256]
  have hts : c.tagSize = GCM_TAG_SIZE := by
    rcases hc with hc | hc <;> subst hc <;> rfl
  constructor
  · intro h
    obtain ⟨hk, hn, hout⟩ := encrypt_ok_inv c M₁ key nonce aad pt out h
    rw [hout, List.length_append, gcmTagB_length,
      gcmCt_length c key nonce pt hg hk, GCM_TAG_SIZE]
  · intro h
    obtain ⟨hk, hn, hge, hp⟩ := decrypt_ok_inv c M₂ key nonce aad input p h
    rw [hp, gcmCt_length c key nonce _ hg hk, List.length_take, hts]
    omega

/-- Witness for C8: AES-128-GCM with the all-zero key and nonce; the empty plaintext
encrypts to the bare 16-byte tag, which decrypts back to the empty plaintext. -/
theorem output_length_exact_witness :
    (gcmTagB Aes128Gcm (List.replicate 16 0) (List.replicate 12 0) [] []).length =
        ([] : List Nat).length + GCM_TAG_SIZE ∧
      ([] : List Nat).length =
        (gcmTagB Aes128Gcm (List.replicate 16 0) (List.replicate 12 0) [] []).length -
          GCM_TAG_SIZE := by
  have henc : aes_gcm_encrypt Aes128Gcm 0 (List.replicate 16 0) (List.replicate 12 0)
      [] [] = .ok (gcmTagB Aes128Gcm (List.replicate 16 0) (List.replicate 12 0) [] []) :=
    rfl
  have hdec : aes_gcm_decrypt Aes128Gcm 0 (List.replicate 16 0) (List.replicate 12 0)
      [] (gcmTagB Aes128Gcm (List.replicate 16 0) (List.replicate 12 0) [] []) =
      .ok [] := rfl
  exact ⟨(output_length_exact Aes128Gcm (Or.inl rfl) 0 0 (List.replicate 16 0)
      (List.replicate 12 0) [] []
      (gcmTagB Aes128Gcm (List.replicate 16 0) (List.replicate 12 0) [] [])
      (gcmTagB Aes128Gcm (List.replicate 16 0) (List.replicate 12 0) [] []) []).1 henc,
    (output_length_exact Aes128Gcm (Or.inl rfl) 0 0 (List.replicate 16 0)
      (List.replicate 12 0) [] []
      (gcmTagB Aes128Gcm (List.replicate 16 0) (List.replicate 12 0) [] [])
      (gcmTagB Aes128Gcm (List.replicate 16 0) (List.replicate 12 0) [] []) []).2 hdec⟩

/-- C9: A ciphertext-with-tag input of length exactly 16 is not rejected with
`InvalidBufferSize`; it is treated as an empty ciphertext plus tag, and the well-tagged
such input decrypts to the empty plaintext. -/
theorem tag_only_ciphertext_ok (c : GcmCipher) (hc : c = Aes128Gcm ∨ c = Aes256Gcm)
    (M : Nat) (key nonce aad input : List Nat)
    (hk : key.length = c.keySize) (hn : nonce.length = c.nonceSize)
    (hlen : input.length = GCM_TAG_SIZE) :
    aes_gcm_decrypt c M key nonce aad input ≠ .error .InvalidBufferSize ∧
    aes_gcm_decrypt c M key nonce aad (gcmTagB c key nonce aad []) = .ok [] := by
  have hts : c.tagSize = GCM_TAG_SIZE := by
    rcases hc with hc | hc <;> subst hc <;> rfl
  constructor
  · rw [aes_gcm_decrypt, check_sizes_ok hk hn, if_neg (by omega)]
    have h0 : input.length - c.tagSize = 0 := by omega
    rw [h0, List.take_zero, List.drop_zero]
    have hext : extendFromSlice M [] [] = .ok [] := by
      unfold extendFromSlice
      simp
    rw [hext]
    show (if gcmTagB c key nonce aad [] = input then Except.ok (gcmCt c key nonce [])
      else Except.error Error.Decryption) ≠ Except.error Error.InvalidBufferSize
    split
    · simp
    · simp
  · have hshape := decrypt_ok_shape c M key nonce aad [] (gcmTagB c key nonce aad [])
      hk hn (by rw [gcmTagB_length, hts]; rfl) (by simp) rfl
    rw [List.nil_append] at hshape
    rw [hshape]
    simp [gcmCt]

/-- Witness for C9: AES-128-GCM with the all-zero key and nonce and an arbitrary
16-byte input. -/
theorem tag_only_ciphertext_ok_witness :
    (List.replicate 16 0 : List Nat).length = GCM_TAG_SIZE ∧
      aes_gcm_decrypt Aes128Gcm 0 (List.replicate 16 0) (List.replicate 12 0) []
        (gcmTagB Aes128Gcm (List.replicate 16 0) (List.replicate 12 0) [] []) = .ok [] :=
  ⟨by decide, (tag_only_ciphertext_ok Aes128Gcm (Or.inl rfl) 0 (List.replicate 16 0)
    (List.replicate 12 0) [] (List.replicate 16 0) (by decide) (by decide)
    (by decide)).2⟩

/-- C10: In decrypt, the key-size and nonce-size checks take precedence over the
buffer-size check: on an input shorter than the tag, a wrong-length key yields
`InvalidKeySize` and a correct key with a wrong-length nonce yields `InvalidIvSize`,
never `InvalidBufferSize`. -/
theorem decrypt_check_precedence (c : GcmCipher) (hc : c = Aes128Gcm ∨ c = Aes256Gcm)
    (M₁ M₂ : Nat) (key₁ key₂ nonce₁ nonce₂ aad₁ aad₂ input₁ input₂ : List Nat)
    (hs₁ : input₁.length < GCM_TAG_SIZE) (hs₂ : input₂.length < GCM_TAG_SIZE)
    (hk₁ : key₁.length ≠ c.keySize)
    (hk₂ : key₂.length = c.keySize) (hn₂ : nonce₂.length ≠ c.nonceSize) :
    aes_gcm_decrypt c M₁ key₁ nonce₁ aad₁ input₁ = .error .InvalidKeySize ∧
    aes_gcm_decrypt c M₂ key₂ nonce₂ aad₂ input₂ = .error .InvalidIvSize := by
  constructor
  · rw [aes_gcm_decrypt, check_sizes_key_err hk₁]
  · rw [aes_gcm_decrypt, check_sizes_iv_err hk₂ hn₂]

/-- Witness for C10: the empty input with an empty key, and with the all-zero 16-byte
key but empty nonce, against AES-128-GCM. -/
theorem decrypt_check_precedence_witness :
    ([] : List Nat).length < GCM_TAG_SIZE ∧
      (aes_gcm_decrypt Aes128Gcm 0 [] [] [] [] = .error .InvalidKeySize ∧
        aes_gcm_decrypt Aes128Gcm 0 (List.replicate 16 0) [] [] [] =
          .error .InvalidIvSize) :=
  ⟨by decide, decrypt_check_precedence Aes128Gcm (Or.inl rfl) 0 0 [] (List.replicate 16 0)
    [] [] [] [] [] [] (by decide) (by decide) (by decide) (by decide) (by decide)⟩

end Sindri
